import Mathlib

/-!
Shallow embedding of the LeituraPRO analytics core and domain store.

The definitions below are direct translations of the TypeScript source:
`src/components/Dashboard.tsx` (filtering, statistics, chart grouping,
reading-level distribution), the application state handlers in the root
component (add/update/delete for students, assessments and classes, and
the view renderer), and `src/services/geminiService.ts` (selection of the
recent assessment history for the AI report).  JavaScript numbers that the
program only ever uses as non-negative integers are modelled as `Nat`;
JavaScript strings as `String`; JavaScript arrays as `List`.
-/

/-- Checklist of boolean sub-skill criteria attached to an assessment. -/
structure Criteria where
  fluency : List Bool
  comprehension : List Bool
  math : Option (List Bool)
deriving DecidableEq, Repr

/-- Student record: identifier, name, class reference (empty string means
no class), reading level category and avatar URL. -/
structure Student where
  id : String
  name : String
  classId : String
  readingLevel : String
  avatarUrl : String
deriving DecidableEq, Repr

/-- Assessment record.  `date` is a calendar-day string expected in
zero-padded ISO `YYYY-MM-DD` form. -/
structure Assessment where
  id : String
  studentId : String
  date : String
  wpm : Nat
  accuracy : Nat
  comprehension : Nat
  mathScore : Option Nat
  criteria : Option Criteria
  notes : String
deriving DecidableEq, Repr

/-- School class record. -/
structure SchoolClass where
  id : String
  name : String
  gradeLevel : String
deriving DecidableEq, Repr

/-- ASCII case folding of a string, the behaviour of
`String.prototype.toLowerCase` on the ASCII range. -/
def lowerStr (s : String) : String := s.map Char.toLower

/-- Substring containment on character lists, the behaviour of
`String.prototype.includes`. -/
def containsSub (hay nee : List Char) : Bool :=
  match hay with
  | [] => nee.isEmpty
  | c :: t => List.isPrefixOf nee (c :: t) || containsSub t nee

/-- String containment test backing the name search. -/
def strIncludes (s sub : String) : Bool := containsSub s.data sub.data

/-- Dashboard student filter (`filteredStudents` in `Dashboard.tsx`): keep
students matching the class selector (sentinel `"all"` or exact class id)
whose lower-cased name contains the lower-cased search string. -/
def filteredStudents (students : List Student) (selectedClassId searchStudent : String) :
    List Student :=
  let searchLower := lowerStr searchStudent
  students.filter (fun student =>
    (selectedClassId == "all" || student.classId == selectedClassId) &&
    strIncludes (lowerStr student.name) searchLower)

/-- Dashboard assessment filter (`filteredAssessments` in `Dashboard.tsx`):
keep assessments whose `studentId` is among the filtered students' ids. -/
def filteredAssessments (students : List Student) (assessments : List Assessment)
    (selectedClassId searchStudent : String) : List Assessment :=
  let studentIds := (filteredStudents students selectedClassId searchStudent).map (·.id)
  assessments.filter (fun a => studentIds.contains a.studentId)

/-- Statistics record computed by the dashboard. -/
structure Stats where
  totalStudents : Nat
  totalAssessments : Nat
  avgWPM : Nat
  avgAccuracy : Nat
deriving DecidableEq, Repr

/-- Rounding of the non-negative rational `num / den` to the nearest
integer with ties rounding up: the behaviour of `Math.round` on
non-negative arguments. -/
def jsRound (num den : Nat) : Nat := (2 * num + den) / (2 * den)

/-- Dashboard statistics (`stats` in `Dashboard.tsx`): counts and rounded
averages over the filtered data, with both averages defined as `0` when
there are no filtered assessments. -/
def computeStats (fs : List Student) (fa : List Assessment) : Stats :=
  let totalStudents := fs.length
  let totalAssessments := fa.length
  if totalAssessments = 0 then
    { totalStudents := totalStudents, totalAssessments := totalAssessments
      avgWPM := 0, avgAccuracy := 0 }
  else
    let totals := fa.foldl (fun acc curr => (acc.1 + curr.wpm, acc.2 + curr.accuracy)) (0, 0)
    { totalStudents := totalStudents, totalAssessments := totalAssessments
      avgWPM := jsRound totals.1 totalAssessments
      avgAccuracy := jsRound totals.2 totalAssessments }

/-- Sum of the words-per-minute metric over a list of assessments. -/
def sumWpm (l : List Assessment) : Nat := (l.map (·.wpm)).sum

/-- Sum of the accuracy metric over a list of assessments. -/
def sumAcc (l : List Assessment) : Nat := (l.map (·.accuracy)).sum

theorem foldl_pair_eq_sums (l : List Assessment) (w a : Nat) :
    l.foldl (fun acc curr => (acc.1 + curr.wpm, acc.2 + curr.accuracy)) (w, a) =
      (w + sumWpm l, a + sumAcc l) := by
  induction l generalizing w a with
  | nil => simp [sumWpm, sumAcc]
  | cons x t ih => simp [sumWpm, sumAcc, ih, List.sum_cons] at *; omega

/-- The id of every member of `filteredStudents` passes the class and
search predicates; used to unfold membership. -/
theorem mem_filteredStudents_iff (students : List Student) (cls search : String)
    (s : Student) :
    s ∈ filteredStudents students cls search ↔
      s ∈ students ∧ ((cls == "all" || s.classId == cls) &&
        strIncludes (lowerStr s.name) (lowerStr search)) = true := by
  simp [filteredStudents, List.mem_filter]

/-- C1: the filtered assessment set contains exactly the assessments of the
full collection whose `studentId` is the id of some filtered student: no
omission and no leakage. -/
theorem filteredAssessments_mem_iff (students : List Student)
    (assessments : List Assessment) (cls search : String) (a : Assessment) :
    a ∈ filteredAssessments students assessments cls search ↔
      a ∈ assessments ∧
        ∃ s ∈ filteredStudents students cls search, s.id = a.studentId := by
  simp only [filteredAssessments, List.mem_filter]
  constructor
  · rintro ⟨ha, hc⟩
    refine ⟨ha, ?_⟩
    have hmem : a.studentId ∈
        (filteredStudents students cls search).map (·.id) := by
      exact List.elem_iff.mp hc
    obtain ⟨s, hs, hid⟩ := List.mem_map.mp hmem
    exact ⟨s, hs, hid⟩
  · rintro ⟨ha, s, hs, hid⟩
    refine ⟨ha, ?_⟩
    exact List.elem_iff.mpr (List.mem_map.mpr ⟨s, hs, hid⟩)

/-- The non-empty branch of `computeStats` in closed form. -/
theorem computeStats_nonempty (fs : List Student) (fa : List Assessment)
    (h : fa.length ≠ 0) :
    computeStats fs fa =
      { totalStudents := fs.length, totalAssessments := fa.length
        avgWPM := jsRound (sumWpm fa) fa.length
        avgAccuracy := jsRound (sumAcc fa) fa.length } := by
  unfold computeStats
  rw [if_neg h, foldl_pair_eq_sums]
  simp

/-- The value of `jsRound s c` is a nearest integer to `s / c`: it is within
half of `s / c` on either side (inequalities cleared of denominators). -/
theorem jsRound_nearest (s c : Nat) (h : 0 < c) :
    2 * s ≤ 2 * jsRound s c * c + c ∧ 2 * jsRound s c * c ≤ 2 * s + c := by
  unfold jsRound
  have hdm := Nat.div_add_mod (2 * s + c) (2 * c)
  have hmod : (2 * s + c) % (2 * c) < 2 * c := Nat.mod_lt _ (by omega)
  have h2 : 2 * ((2 * s + c) / (2 * c)) * c = (2 * s + c) / (2 * c) * (2 * c) := by
    ring
  have h3 : (2 * s + c) / (2 * c) * (2 * c) = 2 * c * ((2 * s + c) / (2 * c)) :=
    Nat.mul_comm _ _
  omega

/-- C2: when the filtered assessment set is empty both averages are exactly
`0`; when it is non-empty each average is the metric sum divided by the
count, rounded to the nearest integer (the bracketing inequalities pin
`jsRound` as a nearest-integer rounding: the average `n` satisfies
`|n - sum/count| ≤ 1/2`, cleared of denominators). -/
theorem stats_avg_spec (fs : List Student) (fa : List Assessment) :
    (fa = [] → (computeStats fs fa).avgWPM = 0 ∧ (computeStats fs fa).avgAccuracy = 0) ∧
    (fa ≠ [] →
      (computeStats fs fa).avgWPM = jsRound (sumWpm fa) fa.length ∧
      (computeStats fs fa).avgAccuracy = jsRound (sumAcc fa) fa.length ∧
      2 * sumWpm fa ≤ 2 * (computeStats fs fa).avgWPM * fa.length + fa.length ∧
      2 * (computeStats fs fa).avgWPM * fa.length ≤ 2 * sumWpm fa + fa.length) := by
  constructor
  · intro h
    subst h
    simp [computeStats]
  · intro h
    have hlen : fa.length ≠ 0 := by
      simpa [List.length_eq_zero] using h
    rw [computeStats_nonempty fs fa hlen]
    have hpos : 0 < fa.length := Nat.pos_of_ne_zero hlen
    have hnear := jsRound_nearest (sumWpm fa) fa.length hpos
    exact ⟨rfl, rfl, hnear.1, hnear.2⟩

/-- Concrete assessment used by witnesses. -/
def sampleA1 : Assessment :=
  { id := "a1", studentId := "s1", date := "2024-03-01", wpm := 40,
    accuracy := 80, comprehension := 3, mathScore := none,
    criteria := none, notes := "" }

/-- Second concrete assessment used by witnesses. -/
def sampleA2 : Assessment :=
  { id := "a2", studentId := "s1", date := "2024-03-02", wpm := 60,
    accuracy := 90, comprehension := 4, mathScore := none,
    criteria := none, notes := "" }

/-- Witness for C2 at the empty list and at a concrete two-element
assessment list. -/
theorem stats_avg_spec_witness :
    ((computeStats [] ([] : List Assessment)).avgWPM = 0 ∧
      (computeStats [] ([] : List Assessment)).avgAccuracy = 0) ∧
    ((computeStats [] [sampleA1, sampleA2]).avgWPM =
        jsRound (sumWpm [sampleA1, sampleA2]) 2 ∧
      (computeStats [] [sampleA1, sampleA2]).avgAccuracy =
        jsRound (sumAcc [sampleA1, sampleA2]) 2) := by
  refine ⟨(stats_avg_spec [] []).1 rfl, ?_⟩
  have h := (stats_avg_spec [] [sampleA1, sampleA2]).2 (by simp)
  exact ⟨h.1, h.2.1⟩

/-- Application state held by the root component: the three domain
collections. -/
structure AppState where
  students : List Student
  assessments : List Assessment
  classes : List SchoolClass
deriving DecidableEq, Repr

/-- Handler `handleAddClass`: append a class record built from the
submitted fields together with a generated identifier.  The generator
`Math.random().toString(36).substr(2, 9)` produces an arbitrary random
string; it enters the model as the `id` field of the appended record. -/
def handleAddClass (st : AppState) (cls : SchoolClass) : AppState :=
  { st with classes := st.classes ++ [cls] }

/-- Handler `handleUpdateClass`: replace-by-id over the class list. -/
def handleUpdateClass (st : AppState) (updatedClass : SchoolClass) : AppState :=
  { st with classes :=
      st.classes.map (fun c => if c.id = updatedClass.id then updatedClass else c) }

/-- Handler `handleDeleteClass` (confirmed branch): drop the class with
the given id and clear the `classId` of every student referencing it. -/
def handleDeleteClass (st : AppState) (id : String) : AppState :=
  { st with
    classes := st.classes.filter (fun c => c.id != id)
    students := st.students.map
      (fun s => if s.classId = id then { s with classId := "" } else s) }

/-- Handler `handleAddStudent`: append a student record built from the
submitted fields together with a generated identifier. -/
def handleAddStudent (st : AppState) (student : Student) : AppState :=
  { st with students := st.students ++ [student] }

/-- Handler `handleUpdateStudent`: replace-by-id over the student list. -/
def handleUpdateStudent (st : AppState) (updatedStudent : Student) : AppState :=
  { st with students :=
      st.students.map (fun s => if s.id = updatedStudent.id then updatedStudent else s) }

/-- Handler `handleDeleteStudent` (confirmed branch): drop the student
with the given id; assessments and classes are untouched. -/
def handleDeleteStudent (st : AppState) (id : String) : AppState :=
  { st with students := st.students.filter (fun s => s.id != id) }

/-- Handler `handleAddAssessment`: append an assessment record built from
the submitted fields together with a generated identifier. -/
def handleAddAssessment (st : AppState) (a : Assessment) : AppState :=
  { st with assessments := st.assessments ++ [a] }

/-- C4: deleting a class removes exactly the classes carrying that id from
the class collection, preserves the student list pointwise except that
students referencing the deleted class get an empty class reference, and
leaves every other student field and the assessment collection
unchanged. -/
theorem deleteClass_spec (st : AppState) (id : String) :
    (∀ c, c ∈ (handleDeleteClass st id).classes ↔ c ∈ st.classes ∧ c.id ≠ id) ∧
    (handleDeleteClass st id).students.length = st.students.length ∧
    (∀ i (h : i < st.students.length)
        (h2 : i < (handleDeleteClass st id).students.length),
      (handleDeleteClass st id).students[i] =
        if st.students[i].classId = id
        then { st.students[i] with classId := "" } else st.students[i]) ∧
    (∀ i (h : i < st.students.length)
        (h2 : i < (handleDeleteClass st id).students.length),
      ((handleDeleteClass st id).students[i]).id = st.students[i].id ∧
      ((handleDeleteClass st id).students[i]).name = st.students[i].name ∧
      ((handleDeleteClass st id).students[i]).readingLevel = st.students[i].readingLevel ∧
      ((handleDeleteClass st id).students[i]).avatarUrl = st.students[i].avatarUrl ∧
      (st.students[i].classId = id → ((handleDeleteClass st id).students[i]).classId = "") ∧
      (st.students[i].classId ≠ id →
        ((handleDeleteClass st id).students[i]).classId = st.students[i].classId)) ∧
    (handleDeleteClass st id).assessments = st.assessments := by
  refine ⟨?_, ?_, ?_, ?_, rfl⟩
  · intro c
    simp [handleDeleteClass, List.mem_filter]
  · simp [handleDeleteClass]
  · intro i h h2
    simp [handleDeleteClass]
  · intro i h h2
    by_cases hc : st.students[i].classId = id <;>
      simp [handleDeleteClass, hc]

/-- Concrete student used by witnesses. -/
def sampleS1 : Student :=
  { id := "s1", name := "Ana", classId := "c1",
    readingLevel := "Iniciante", avatarUrl := "" }

/-- Second concrete student used by witnesses. -/
def sampleS2 : Student :=
  { id := "s2", name := "Bruno", classId := "c2",
    readingLevel := "Fluente", avatarUrl := "" }

/-- Concrete class used by witnesses. -/
def sampleC1 : SchoolClass := { id := "c1", name := "Turma A", gradeLevel := "1" }

/-- Second concrete class used by witnesses. -/
def sampleC2 : SchoolClass := { id := "c2", name := "Turma B", gradeLevel := "2" }

/-- Concrete application state used by witnesses. -/
def sampleState : AppState :=
  { students := [sampleS1, sampleS2]
    assessments := [sampleA1, sampleA2]
    classes := [sampleC1, sampleC2] }

/-- Witness for C4 at a concrete state: deleting class `c1` empties the
class reference of `s1` only and keeps the assessments. -/
theorem deleteClass_spec_witness :
    (∀ c, c ∈ (handleDeleteClass sampleState "c1").classes ↔
        c ∈ sampleState.classes ∧ c.id ≠ "c1") ∧
    (handleDeleteClass sampleState "c1").students.length =
      sampleState.students.length ∧
    (handleDeleteClass sampleState "c1").assessments = sampleState.assessments := by
  have h := deleteClass_spec sampleState "c1"
  exact ⟨h.1, h.2.1, h.2.2.2.2⟩

/-- Counting students by id equals counting the id in the projected id
list. -/
theorem countP_id_eq_count_map (l : List Student) (id : String) :
    l.countP (fun s => s.id == id) = (l.map Student.id).count id := by
  induction l with
  | nil => rfl
  | cons x t ih =>
    by_cases hx : x.id = id <;>
      simp [List.countP_cons, List.count_cons, hx, ih]

/-- C5: deleting a student whose id occurs in a duplicate-free student
collection removes exactly that one student (the length drops by one, the
survivors are exactly the students with a different id, in their original
order) and leaves the assessment and class collections unchanged. -/
theorem deleteStudent_spec (st : AppState) (id : String)
    (hnd : (st.students.map Student.id).Nodup)
    (hmem : id ∈ st.students.map Student.id) :
    (handleDeleteStudent st id).students.length + 1 = st.students.length ∧
    (∀ s, s ∈ (handleDeleteStudent st id).students ↔
        s ∈ st.students ∧ s.id ≠ id) ∧
    (handleDeleteStudent st id).students.Sublist st.students ∧
    (handleDeleteStudent st id).assessments = st.assessments ∧
    (handleDeleteStudent st id).classes = st.classes := by
  refine ⟨?_, ?_, ?_, rfl, rfl⟩
  · have hcount : (st.students.map Student.id).count id = 1 :=
      List.count_eq_one_of_mem hnd hmem
    have hcp : st.students.countP (fun s => s.id == id) = 1 := by
      rw [countP_id_eq_count_map]; exact hcount
    have hsplit := List.length_eq_countP_add_countP
      (l := st.students) (fun s => s.id == id)
    have hpred : (fun a : Student => decide ¬(a.id == id) = true) =
        (fun a : Student => !(a.id == id)) := by
      funext a
      by_cases h : a.id = id <;> simp [h]
    rw [hpred] at hsplit
    have hflen : (handleDeleteStudent st id).students.length =
        st.students.countP (fun s => !(s.id == id)) := by
      simp [handleDeleteStudent, ← List.countP_eq_length_filter, bne]
    omega
  · intro s
    by_cases hs : s.id = id <;>
      simp [handleDeleteStudent, List.mem_filter, hs]
  · exact List.filter_sublist _

/-- Witness for C5 at a concrete two-student state. -/
theorem deleteStudent_spec_witness :
    (handleDeleteStudent sampleState "s1").students.length + 1 =
      sampleState.students.length ∧
    (handleDeleteStudent sampleState "s1").assessments =
      sampleState.assessments := by
  have h := deleteStudent_spec sampleState "s1" (by decide) (by decide)
  exact ⟨h.1, h.2.2.2.1⟩

/-- C10: updating a student (or a class) replaces exactly the elements
carrying the replacement's id, preserving length and order; when no
element carries that id the collection is returned unchanged, so the
update of a nonexistent id is a silent no-op rather than an insertion or
an error. -/
theorem update_replace_spec (st : AppState) (u : Student) (c : SchoolClass) :
    ((handleUpdateStudent st u).students.length = st.students.length ∧
     (∀ i (h : i < st.students.length)
         (h2 : i < (handleUpdateStudent st u).students.length),
       (handleUpdateStudent st u).students[i] =
         if st.students[i].id = u.id then u else st.students[i]) ∧
     ((∀ s ∈ st.students, s.id ≠ u.id) →
       (handleUpdateStudent st u).students = st.students) ∧
     (handleUpdateStudent st u).assessments = st.assessments ∧
     (handleUpdateStudent st u).classes = st.classes) ∧
    ((handleUpdateClass st c).classes.length = st.classes.length ∧
     (∀ i (h : i < st.classes.length)
         (h2 : i < (handleUpdateClass st c).classes.length),
       (handleUpdateClass st c).classes[i] =
         if st.classes[i].id = c.id then c else st.classes[i]) ∧
     ((∀ k ∈ st.classes, k.id ≠ c.id) →
       (handleUpdateClass st c).classes = st.classes) ∧
     (handleUpdateClass st c).students = st.students ∧
     (handleUpdateClass st c).assessments = st.assessments) := by
  refine ⟨⟨?_, ?_, ?_, rfl, rfl⟩, ⟨?_, ?_, ?_, rfl, rfl⟩⟩
  · simp [handleUpdateStudent]
  · intro i h h2
    simp [handleUpdateStudent]
  · intro hno
    have : ∀ s ∈ st.students,
        (if s.id = u.id then u else s) = s := by
      intro s hs
      rw [if_neg (hno s hs)]
    calc (handleUpdateStudent st u).students
        = st.students.map (fun s => if s.id = u.id then u else s) := rfl
      _ = st.students.map id := List.map_congr_left this
      _ = st.students := List.map_id _
  · simp [handleUpdateClass]
  · intro i h h2
    simp [handleUpdateClass]
  · intro hno
    have : ∀ k ∈ st.classes,
        (if k.id = c.id then c else k) = k := by
      intro k hk
      rw [if_neg (hno k hk)]
    calc (handleUpdateClass st c).classes
        = st.classes.map (fun k => if k.id = c.id then c else k) := rfl
      _ = st.classes.map id := List.map_congr_left this
      _ = st.classes := List.map_id _

/-- Witness for C10 at a concrete state: updating an existing student and
attempting to update a class id that does not exist. -/
theorem update_replace_spec_witness :
    (handleUpdateStudent sampleState
        { sampleS1 with name := "Ana Maria" }).students.length =
      sampleState.students.length ∧
    (handleUpdateClass sampleState
        { id := "zzz", name := "X", gradeLevel := "9" }).classes =
      sampleState.classes := by
  have h := update_replace_spec sampleState
    { sampleS1 with name := "Ana Maria" }
    { id := "zzz", name := "X", gradeLevel := "9" }
  exact ⟨h.1.1, h.2.2.2.1 (by decide)⟩

/-- View states of the navigation controller. -/
inductive ViewState where
  | DASHBOARD
  | CLASSES
  | STUDENTS
  | STUDENT_HISTORY
  | ASSESSMENT
deriving DecidableEq, Repr

/-- Result of `renderContent`: which component is rendered and the data
props passed to it (callback props are not data and are omitted). -/
inductive Rendered where
  | dashboard (students : List Student) (assessments : List Assessment)
      (classes : List SchoolClass)
  | classList (classes : List SchoolClass) (students : List Student)
  | studentList (students : List Student) (classes : List SchoolClass)
      (assessments : List Assessment) (initialClassId : String)
  | studentHistory (student : Student) (assessments : List Assessment)
  | assessmentForm (students : List Student) (classes : List SchoolClass)
deriving DecidableEq, Repr

/-- The root component's `renderContent`: map the current view state to a
rendered component.  In the `STUDENT_HISTORY` case the selected student id
is resolved with `find`; when it resolves to no student the Dashboard is
rendered over the full collections instead. -/
def renderContent (st : AppState) (currentView : ViewState)
    (selectedClassId selectedStudentId : String) : Rendered :=
  match currentView with
  | .DASHBOARD => .dashboard st.students st.assessments st.classes
  | .CLASSES => .classList st.classes st.students
  | .STUDENTS => .studentList st.students st.classes st.assessments selectedClassId
  | .STUDENT_HISTORY =>
    match st.students.find? (fun s => s.id == selectedStudentId) with
    | none => .dashboard st.students st.assessments st.classes
    | some student =>
      .studentHistory student
        (st.assessments.filter (fun a => a.studentId == student.id))
  | .ASSESSMENT => .assessmentForm st.students st.classes

/-- C7: when the view is StudentHistory and the selected student id does
not resolve to any student, `renderContent` renders the Dashboard over the
full collections. -/
theorem renderContent_history_fallback (st : AppState)
    (selectedClassId selectedStudentId : String)
    (h : ∀ s ∈ st.students, s.id ≠ selectedStudentId) :
    renderContent st .STUDENT_HISTORY selectedClassId selectedStudentId =
      .dashboard st.students st.assessments st.classes := by
  have hfind : st.students.find? (fun s => s.id == selectedStudentId) = none := by
    rw [List.find?_eq_none]
    intro s hs
    simpa using h s hs
  simp [renderContent, hfind]

/-- Witness for C7 at a concrete state whose students do not contain the
selected id. -/
theorem renderContent_history_fallback_witness :
    renderContent sampleState .STUDENT_HISTORY "" "ghost" =
      .dashboard sampleState.students sampleState.assessments
        sampleState.classes := by
  exact renderContent_history_fallback sampleState "" "ghost" (by decide)

/-- Update step of a JavaScript-object accumulator used by `reduce`
grouping: if the key is present its value is updated in place, otherwise
the key is appended at the end (string-keyed JavaScript objects enumerate
non-index keys in insertion order). -/
def updAssoc {β : Type u} (k : String) (f : β → β) (i : β) :
    List (String × β) → List (String × β)
  | [] => [(k, i)]
  | (k2, v) :: t => if k2 = k then (k2, f v) :: t else (k2, v) :: updAssoc k f i t

/-- The grouping fold shared by the chart aggregation and the
reading-level distribution of `Dashboard.tsx`: each element contributes
`f a` to the accumulator under key `key a`, a fresh key starting from the
base value `b0`. -/
def groupFold {α : Type u} {β : Type v} (key : α → String) (f : α → β → β)
    (b0 : β) (l : List α) : List (String × β) :=
  l.foldl (fun acc a => updAssoc (key a) (f a) (f a b0) acc) []

/-- Lookup in a string-keyed association list, the counterpart of
JavaScript property access on the accumulator object. -/
def lookupAssoc {β : Type u} (k : String) : List (String × β) → Option β
  | [] => none
  | (k2, v) :: t => if k2 = k then some v else lookupAssoc k t

/-- The list of distinct values of a string list in order of first
occurrence. -/
def firstOccurrences : List String → List String
  | [] => []
  | x :: t => x :: firstOccurrences (t.filter (fun y => y != x))
termination_by l => l.length
decreasing_by
  simp only [List.length_cons]
  exact Nat.lt_succ_of_le (List.length_filter_le _ _)

theorem map_fst_updAssoc {β : Type u} (k : String) (f : β → β) (i : β)
    (acc : List (String × β)) :
    (updAssoc k f i acc).map Prod.fst =
      if k ∈ acc.map Prod.fst then acc.map Prod.fst
      else acc.map Prod.fst ++ [k] := by
  induction acc with
  | nil => simp [updAssoc]
  | cons p t ih =>
    obtain ⟨k2, v⟩ := p
    by_cases h : k2 = k
    · subst h
      simp [updAssoc]
    · simp only [updAssoc, if_neg h, List.map_cons, ih]
      have hne : k ≠ k2 := fun hh => h hh.symm
      by_cases hm : k ∈ t.map Prod.fst <;> simp [hm, hne]

theorem filter_notMem_append_singleton (K : List String) (k : String)
    (L : List String) :
    L.filter (fun y => decide (y ∉ K ++ [k])) =
      (L.filter (fun y => decide (y ∉ K))).filter (fun y => y != k) := by
  rw [List.filter_filter]
  apply List.filter_congr
  intro y _
  by_cases h1 : y = k <;> by_cases h2 : y ∈ K <;> simp [h1, h2]

theorem groupFold_keys_aux {α : Type u} {β : Type v} (key : α → String)
    (f : α → β → β) (b0 : β) (l : List α) (acc : List (String × β)) :
    (l.foldl (fun acc a => updAssoc (key a) (f a) (f a b0) acc) acc).map Prod.fst =
      acc.map Prod.fst ++
        firstOccurrences
          ((l.map key).filter (fun y => decide (y ∉ acc.map Prod.fst))) := by
  induction l generalizing acc with
  | nil => simp [firstOccurrences]
  | cons a t ih =>
    simp only [List.foldl_cons, List.map_cons]
    by_cases hmem : key a ∈ acc.map Prod.fst
    · rw [ih]
      have hkeys : (updAssoc (key a) (f a) (f a b0) acc).map Prod.fst =
          acc.map Prod.fst := by
        rw [map_fst_updAssoc, if_pos hmem]
      rw [hkeys]
      have hstep : ((key a) :: t.map key).filter
            (fun y => decide (y ∉ acc.map Prod.fst)) =
          (t.map key).filter (fun y => decide (y ∉ acc.map Prod.fst)) := by
        simp [List.filter_cons, hmem]
      rw [hstep]
    · rw [ih]
      have hkeys : (updAssoc (key a) (f a) (f a b0) acc).map Prod.fst =
          acc.map Prod.fst ++ [key a] := by
        rw [map_fst_updAssoc, if_neg hmem]
      rw [hkeys, filter_notMem_append_singleton]
      have hstep : ((key a) :: t.map key).filter
            (fun y => decide (y ∉ acc.map Prod.fst)) =
          (key a) :: (t.map key).filter (fun y => decide (y ∉ acc.map Prod.fst)) := by
        simp [List.filter_cons, hmem]
      rw [hstep]
      have hfo : firstOccurrences
          ((key a) :: (t.map key).filter (fun y => decide (y ∉ acc.map Prod.fst))) =
          (key a) :: firstOccurrences
            (((t.map key).filter (fun y => decide (y ∉ acc.map Prod.fst))).filter
              (fun y => y != key a)) := by
        simp [firstOccurrences]
      rw [hfo]
      simp

theorem groupFold_keys {α : Type u} {β : Type v} (key : α → String)
    (f : α → β → β) (b0 : β) (l : List α) :
    (groupFold key f b0 l).map Prod.fst = firstOccurrences (l.map key) := by
  have h := groupFold_keys_aux key f b0 l []
  simpa [groupFold] using h

theorem lookupAssoc_updAssoc_self {β : Type u} (k : String) (f : β → β) (i : β)
    (acc : List (String × β)) :
    lookupAssoc k (updAssoc k f i acc) =
      some (match lookupAssoc k acc with
            | some v => f v
            | none => i) := by
  induction acc with
  | nil => simp [updAssoc, lookupAssoc]
  | cons p t ih =>
    obtain ⟨k2, v⟩ := p
    by_cases h : k2 = k
    · subst h
      simp [updAssoc, lookupAssoc]
    · simp [updAssoc, lookupAssoc, h, ih]

theorem lookupAssoc_updAssoc_other {β : Type u} (k k2 : String) (h : k2 ≠ k)
    (f : β → β) (i : β) (acc : List (String × β)) :
    lookupAssoc k (updAssoc k2 f i acc) = lookupAssoc k acc := by
  induction acc with
  | nil => simp [updAssoc, lookupAssoc, h]
  | cons p t ih =>
    obtain ⟨k3, v⟩ := p
    by_cases h3 : k3 = k2
    · subst h3
      simp [updAssoc, lookupAssoc, h]
    · by_cases h4 : k3 = k
      · subst h4
        simp [updAssoc, lookupAssoc, h3]
      · simp [updAssoc, lookupAssoc, h3, h4, ih]

theorem lookupAssoc_groupFold_aux {α : Type u} {β : Type v} (key : α → String)
    (f : α → β → β) (b0 : β) (l : List α) (acc : List (String × β)) (k : String) :
    lookupAssoc k (l.foldl (fun acc a => updAssoc (key a) (f a) (f a b0) acc) acc) =
      match lookupAssoc k acc with
      | some v => some ((l.filter (fun a => key a == k)).foldl (fun b a => f a b) v)
      | none =>
        match l.filter (fun a => key a == k) with
        | [] => none
        | a2 :: t2 => some ((a2 :: t2).foldl (fun b a => f a b) b0) := by
  induction l generalizing acc with
  | nil =>
    cases h : lookupAssoc k acc <;> simp [h]
  | cons a t ih =>
    simp only [List.foldl_cons, List.filter_cons]
    by_cases hk : key a = k
    · rw [ih]
      rw [hk, lookupAssoc_updAssoc_self]
      cases h : lookupAssoc k acc <;> simp [h, hk]
    · rw [ih]
      rw [lookupAssoc_updAssoc_other k (key a) hk]
      have hne : (key a == k) = false := by
        simpa using hk
      cases h : lookupAssoc k acc <;> simp [h, hne]

theorem lookupAssoc_groupFold {α : Type u} {β : Type v} (key : α → String)
    (f : α → β → β) (b0 : β) (l : List α) (k : String) :
    lookupAssoc k (groupFold key f b0 l) =
      match l.filter (fun a => key a == k) with
      | [] => none
      | a2 :: t2 => some ((a2 :: t2).foldl (fun b a => f a b) b0) := by
  have h := lookupAssoc_groupFold_aux key f b0 l [] k
  simpa [groupFold, lookupAssoc] using h

theorem mem_firstOccurrences (l : List String) (x : String) :
    x ∈ firstOccurrences l ↔ x ∈ l := by
  induction l using firstOccurrences.induct with
  | case1 => simp [firstOccurrences]
  | case2 y t ih =>
    rw [firstOccurrences, List.mem_cons, ih, List.mem_filter]
    by_cases hx : x = y
    · simp [hx]
    · simp [hx, bne_iff_ne]

theorem firstOccurrences_nodup (l : List String) :
    (firstOccurrences l).Nodup := by
  induction l using firstOccurrences.induct with
  | case1 => simp [firstOccurrences]
  | case2 y t ih =>
    rw [firstOccurrences]
    refine List.nodup_cons.mpr ⟨?_, ih⟩
    rw [mem_firstOccurrences]
    simp

theorem lookupAssoc_eq_some_of_mem {β : Type u} (acc : List (String × β))
    (hnd : (acc.map Prod.fst).Nodup) (k : String) (v : β)
    (h : (k, v) ∈ acc) : lookupAssoc k acc = some v := by
  induction acc with
  | nil => cases h
  | cons p t ih =>
    obtain ⟨k2, v2⟩ := p
    rcases List.mem_cons.mp h with heq | hmem
    · obtain ⟨hk, hv⟩ := Prod.mk.injEq .. ▸ heq
      simp [lookupAssoc, hk.symm, hv]
    · have hk2 : k2 ≠ k := by
        intro hkk
        subst hkk
        have : k2 ∈ t.map Prod.fst :=
          List.mem_map.mpr ⟨(k2, v), hmem, rfl⟩
        exact (List.nodup_cons.mp (by simpa using hnd)).1 this
      simp only [lookupAssoc, if_neg hk2]
      exact ih (List.nodup_cons.mp (by simpa using hnd)).2 hmem

/-- Reading-level distribution (`levelData` in `Dashboard.tsx`): counts per
reading level accumulated into a string-keyed object via `reduce`, then
emitted as one `(category, count)` pair per key in the object's key
order. -/
def levelData (fs : List Student) : List (String × Nat) :=
  groupFold (fun s => s.readingLevel) (fun _ n => n + 1) 0 fs

theorem foldl_count_eq_length {α : Type u} (L : List α) (v : Nat) :
    L.foldl (fun b _ => b + 1) v = v + L.length := by
  induction L generalizing v with
  | nil => simp
  | cons x t ih => simp [ih]; omega

/-- C8: the reading-level distribution has exactly one pair per distinct
reading-level value of the filtered students, the pairs listed in order of
first occurrence, and each pair's count is the number of filtered students
at that level. -/
theorem levelData_spec (fs : List Student) :
    (levelData fs).map Prod.fst =
      firstOccurrences (fs.map (fun s => s.readingLevel)) ∧
    ((levelData fs).map Prod.fst).Nodup ∧
    (∀ x, x ∈ (levelData fs).map Prod.fst ↔
      x ∈ fs.map (fun s => s.readingLevel)) ∧
    (∀ p ∈ levelData fs,
      p.2 = (fs.filter (fun s => s.readingLevel == p.1)).length) := by
  have hkeys : (levelData fs).map Prod.fst =
      firstOccurrences (fs.map (fun s => s.readingLevel)) :=
    groupFold_keys (fun s : Student => s.readingLevel) (fun _ n => n + 1) 0 fs
  refine ⟨hkeys, ?_, ?_, ?_⟩
  · rw [hkeys]
    exact firstOccurrences_nodup _
  · intro x
    rw [hkeys, mem_firstOccurrences]
  · intro p hp
    have hnd : ((levelData fs).map Prod.fst).Nodup := by
      rw [hkeys]
      exact firstOccurrences_nodup _
    have hpmem : (p.1, p.2) ∈ levelData fs := by
      rw [Prod.mk.eta]
      exact hp
    have hlook : lookupAssoc p.1 (levelData fs) = some p.2 :=
      lookupAssoc_eq_some_of_mem _ hnd p.1 p.2 hpmem
    rw [levelData] at hlook
    rw [lookupAssoc_groupFold] at hlook
    cases hfil : fs.filter (fun s => s.readingLevel == p.1) with
    | nil =>
      rw [hfil] at hlook
      exact absurd hlook (by simp)
    | cons a2 t2 =>
      rw [hfil] at hlook
      simp only [Option.some.injEq] at hlook
      have hlen := foldl_count_eq_length (a2 :: t2) 0
      omega

/-- Witness for C8 at a concrete two-student list. -/
theorem levelData_spec_witness :
    (levelData [sampleS1, sampleS2]).map Prod.fst =
      firstOccurrences ([sampleS1, sampleS2].map (fun s => s.readingLevel)) ∧
    (("Iniciante", 1) : String × Nat).2 =
      ([sampleS1, sampleS2].filter
        (fun s => s.readingLevel == (("Iniciante", 1) : String × Nat).1)).length := by
  refine ⟨(levelData_spec [sampleS1, sampleS2]).1, ?_⟩
  exact (levelData_spec [sampleS1, sampleS2]).2.2.2 ("Iniciante", 1) (by decide)

/-- Code-unit-wise comparison of character lists: the ordering used by the
default JavaScript `Array.prototype.sort` on strings (`true` when the
first list is less than or equal to the second). -/
def charsLe : List Char → List Char → Bool
  | [], _ => true
  | _ :: _, [] => false
  | a :: as, b :: bs =>
    if a.toNat < b.toNat then true
    else if b.toNat < a.toNat then false
    else charsLe as bs

/-- String order backing the date-key sort. -/
def jsStrLe (s t : String) : Prop := charsLe s.data t.data = true

instance : DecidableRel jsStrLe := fun s t =>
  inferInstanceAs (Decidable (charsLe s.data t.data = true))

theorem charsLe_total (a b : List Char) :
    charsLe a b = true ∨ charsLe b a = true := by
  induction a generalizing b with
  | nil => left; rfl
  | cons x as ih =>
    cases b with
    | nil => right; rfl
    | cons y bs =>
      by_cases h1 : x.toNat < y.toNat
      · left
        simp [charsLe, h1]
      · by_cases h2 : y.toNat < x.toNat
        · right
          simp [charsLe, h2]
        · rcases ih bs with h | h
          · left
            simp [charsLe, h1, h2, h]
          · right
            simp [charsLe, h1, h2, h]

theorem charsLe_trans (a b c : List Char) (h1 : charsLe a b = true)
    (h2 : charsLe b c = true) : charsLe a c = true := by
  induction a generalizing b c with
  | nil => rfl
  | cons x as ih =>
    cases b with
    | nil => simp [charsLe] at h1
    | cons y bs =>
      cases c with
      | nil => simp [charsLe] at h2
      | cons z cs =>
        simp only [charsLe] at h1 h2 ⊢
        split_ifs at h1 h2 ⊢ <;> first
          | rfl
          | omega
          | exact h1
          | exact h2
          | exact ih bs cs h1 h2

theorem char_toNat_inj (a b : Char) (h : a.toNat = b.toNat) : a = b :=
  Char.ext (UInt32.toNat.inj h)

theorem charsLe_antisymm (a b : List Char) (h1 : charsLe a b = true)
    (h2 : charsLe b a = true) : a = b := by
  induction a generalizing b with
  | nil =>
    cases b with
    | nil => rfl
    | cons y bs => simp [charsLe] at h2
  | cons x as ih =>
    cases b with
    | nil => simp [charsLe] at h1
    | cons y bs =>
      simp only [charsLe] at h1 h2
      split_ifs at h1 h2 <;> try omega
      have hxy : x = y := char_toNat_inj x y (by omega)
      rw [hxy, ih bs h1 h2]

instance : IsTotal String jsStrLe :=
  ⟨fun s t => charsLe_total s.data t.data⟩

instance : IsTrans String jsStrLe :=
  ⟨fun a b c => charsLe_trans a.data b.data c.data⟩

theorem jsStrLe_antisymm (s t : String) (h1 : jsStrLe s t) (h2 : jsStrLe t s) :
    s = t := by
  have hd : s.data = t.data := charsLe_antisymm s.data t.data h1 h2
  exact String.ext hd

/-- Decides whether a character is an ASCII digit. -/
def isDigitCh (c : Char) : Bool := 48 ≤ c.toNat && c.toNat ≤ 57

/-- Shape check for zero-padded ISO `YYYY-MM-DD` date strings: ten
characters, digits at the year, month and day positions, hyphens at
positions four and seven. -/
def validIsoDate (s : String) : Bool :=
  match s.data with
  | [y1, y2, y3, y4, h1, m1, m2, h2, d1, d2] =>
    isDigitCh y1 && isDigitCh y2 && isDigitCh y3 && isDigitCh y4 &&
    (h1 == '-') && isDigitCh m1 && isDigitCh m2 && (h2 == '-') &&
    isDigitCh d1 && isDigitCh d2
  | _ => false

/-- Numeric value of an ASCII digit character. -/
def dval (c : Char) : Nat := c.toNat - 48

/-- Chronological value of a zero-padded ISO date string: the eight digits
read as one number (`year * 10000 + month * 100 + day`), zero on any other
shape. -/
def isoNum (s : String) : Nat :=
  match s.data with
  | [y1, y2, y3, y4, _, m1, m2, _, d1, d2] =>
    dval y1 * 10000000 + dval y2 * 1000000 + dval y3 * 100000 +
    dval y4 * 10000 + dval m1 * 1000 + dval m2 * 100 + dval d1 * 10 + dval d2
  | _ => 0

theorem validIsoDate_elim (s : String) (h : validIsoDate s = true) :
    ∃ y1 y2 y3 y4 m1 m2 d1 d2 : Char,
      s.data = [y1, y2, y3, y4, '-', m1, m2, '-', d1, d2] ∧
      (48 ≤ y1.toNat ∧ y1.toNat ≤ 57) ∧ (48 ≤ y2.toNat ∧ y2.toNat ≤ 57) ∧
      (48 ≤ y3.toNat ∧ y3.toNat ≤ 57) ∧ (48 ≤ y4.toNat ∧ y4.toNat ≤ 57) ∧
      (48 ≤ m1.toNat ∧ m1.toNat ≤ 57) ∧ (48 ≤ m2.toNat ∧ m2.toNat ≤ 57) ∧
      (48 ≤ d1.toNat ∧ d1.toNat ≤ 57) ∧ (48 ≤ d2.toNat ∧ d2.toNat ≤ 57) := by
  unfold validIsoDate at h
  rcases hd : s.data with _ | ⟨c1, _ | ⟨c2, _ | ⟨c3, _ | ⟨c4, _ | ⟨c5, _ |
    ⟨c6, _ | ⟨c7, _ | ⟨c8, _ | ⟨c9, _ | ⟨c10, _ | ⟨c11, rest⟩⟩⟩⟩⟩⟩⟩⟩⟩⟩⟩ <;>
    rw [hd] at h <;>
    try exact absurd h Bool.false_ne_true
  have hred : (isDigitCh c1 && isDigitCh c2 && isDigitCh c3 && isDigitCh c4 &&
      (c5 == '-') && isDigitCh c6 && isDigitCh c7 && (c8 == '-') &&
      isDigitCh c9 && isDigitCh c10) = true := h
  simp only [Bool.and_eq_true] at hred
  obtain ⟨⟨⟨⟨⟨⟨⟨⟨⟨h1, h2⟩, h3⟩, h4⟩, h5⟩, h6⟩, h7⟩, h8⟩, h9⟩, h10⟩ := hred
  have hc5 : c5 = '-' := beq_iff_eq.mp h5
  have hc8 : c8 = '-' := beq_iff_eq.mp h8
  subst hc5
  subst hc8
  simp only [isDigitCh, Bool.and_eq_true, decide_eq_true_eq] at h1 h2 h3 h4 h6 h7 h9 h10
  exact ⟨c1, c2, c3, c4, c6, c7, c9, c10, rfl, h1, h2, h3, h4, h6, h7, h9, h10⟩

theorem isoNum_eq_of_data (s : String)
    (c1 c2 c3 c4 c5 c6 c7 c8 c9 c10 : Char)
    (hd : s.data = [c1, c2, c3, c4, c5, c6, c7, c8, c9, c10]) :
    isoNum s = dval c1 * 10000000 + dval c2 * 1000000 + dval c3 * 100000 +
      dval c4 * 10000 + dval c6 * 1000 + dval c7 * 100 + dval c9 * 10 +
      dval c10 := by
  unfold isoNum
  rw [hd]

theorem charsLe_cons_eq (a b : Char) (as bs : List Char) :
    charsLe (a :: as) (b :: bs) =
      if a.toNat < b.toNat then true
      else if b.toNat < a.toNat then false
      else charsLe as bs := rfl

theorem isoNum_lt_of_charsLe_ne (s t : String)
    (hs : validIsoDate s = true) (ht : validIsoDate t = true)
    (hle : jsStrLe s t) (hne : s ≠ t) :
    isoNum s < isoNum t := by
  obtain ⟨a1, a2, a3, a4, a6, a7, a9, a10, hda, ⟨ha1, hb1⟩, ⟨ha2, hb2⟩,
    ⟨ha3, hb3⟩, ⟨ha4, hb4⟩, ⟨ha6, hb6⟩, ⟨ha7, hb7⟩, ⟨ha9, hb9⟩, ⟨ha10, hb10⟩⟩ :=
    validIsoDate_elim s hs
  obtain ⟨c1, c2, c3, c4, c6, c7, c9, c10, hdc, ⟨hc1, hd1⟩, ⟨hc2, hd2⟩,
    ⟨hc3, hd3⟩, ⟨hc4, hd4⟩, ⟨hc6, hd6⟩, ⟨hc7, hd7⟩, ⟨hc9, hd9⟩, ⟨hc10, hd10⟩⟩ :=
    validIsoDate_elim t ht
  rw [isoNum_eq_of_data s a1 a2 a3 a4 '-' a6 a7 '-' a9 a10 hda,
      isoNum_eq_of_data t c1 c2 c3 c4 '-' c6 c7 '-' c9 c10 hdc]
  unfold jsStrLe at hle
  rw [hda, hdc] at hle
  have hnedata : ([a1, a2, a3, a4, '-', a6, a7, '-', a9, a10] : List Char) ≠
      [c1, c2, c3, c4, '-', c6, c7, '-', c9, c10] := by
    intro he
    exact hne (String.ext (hda.trans (he.trans hdc.symm)))
  have hdash : ¬ (('-' : Char).toNat < ('-' : Char).toNat) := Nat.lt_irrefl _
  simp only [dval]
  rw [charsLe_cons_eq] at hle
  by_cases h1 : a1.toNat < c1.toNat
  · omega
  rw [if_neg h1] at hle
  by_cases g1 : c1.toNat < a1.toNat
  · rw [if_pos g1] at hle
    exact absurd hle Bool.false_ne_true
  rw [if_neg g1] at hle
  have e1 : a1 = c1 := char_toNat_inj _ _ (by omega)
  subst e1
  rw [charsLe_cons_eq] at hle
  by_cases h2 : a2.toNat < c2.toNat
  · omega
  rw [if_neg h2] at hle
  by_cases g2 : c2.toNat < a2.toNat
  · rw [if_pos g2] at hle
    exact absurd hle Bool.false_ne_true
  rw [if_neg g2] at hle
  have e2 : a2 = c2 := char_toNat_inj _ _ (by omega)
  subst e2
  rw [charsLe_cons_eq] at hle
  by_cases h3 : a3.toNat < c3.toNat
  · omega
  rw [if_neg h3] at hle
  by_cases g3 : c3.toNat < a3.toNat
  · rw [if_pos g3] at hle
    exact absurd hle Bool.false_ne_true
  rw [if_neg g3] at hle
  have e3 : a3 = c3 := char_toNat_inj _ _ (by omega)
  subst e3
  rw [charsLe_cons_eq] at hle
  by_cases h4 : a4.toNat < c4.toNat
  · omega
  rw [if_neg h4] at hle
  by_cases g4 : c4.toNat < a4.toNat
  · rw [if_pos g4] at hle
    exact absurd hle Bool.false_ne_true
  rw [if_neg g4] at hle
  have e4 : a4 = c4 := char_toNat_inj _ _ (by omega)
  subst e4
  rw [charsLe_cons_eq, if_neg hdash, if_neg hdash] at hle
  rw [charsLe_cons_eq] at hle
  by_cases h6 : a6.toNat < c6.toNat
  · omega
  rw [if_neg h6] at hle
  by_cases g6 : c6.toNat < a6.toNat
  · rw [if_pos g6] at hle
    exact absurd hle Bool.false_ne_true
  rw [if_neg g6] at hle
  have e6 : a6 = c6 := char_toNat_inj _ _ (by omega)
  subst e6
  rw [charsLe_cons_eq] at hle
  by_cases h7 : a7.toNat < c7.toNat
  · omega
  rw [if_neg h7] at hle
  by_cases g7 : c7.toNat < a7.toNat
  · rw [if_pos g7] at hle
    exact absurd hle Bool.false_ne_true
  rw [if_neg g7] at hle
  have e7 : a7 = c7 := char_toNat_inj _ _ (by omega)
  subst e7
  rw [charsLe_cons_eq, if_neg hdash, if_neg hdash] at hle
  rw [charsLe_cons_eq] at hle
  by_cases h9 : a9.toNat < c9.toNat
  · omega
  rw [if_neg h9] at hle
  by_cases g9 : c9.toNat < a9.toNat
  · rw [if_pos g9] at hle
    exact absurd hle Bool.false_ne_true
  rw [if_neg g9] at hle
  have e9 : a9 = c9 := char_toNat_inj _ _ (by omega)
  subst e9
  rw [charsLe_cons_eq] at hle
  by_cases h10 : a10.toNat < c10.toNat
  · omega
  rw [if_neg h10] at hle
  by_cases g10 : c10.toNat < a10.toNat
  · rw [if_pos g10] at hle
    exact absurd hle Bool.false_ne_true
  have e10 : a10 = c10 := char_toNat_inj _ _ (by omega)
  subst e10
  exact absurd rfl hnedata

/-- Chart grouping (`grouped` in `chartData` of `Dashboard.tsx`): running
WPM sum and count per raw ISO date key. -/
def chartGroup (fa : List Assessment) : List (String × (Nat × Nat)) :=
  groupFold (fun a => a.date) (fun a p => (p.1 + a.wpm, p.2 + 1)) (0, 0) fa

/-- The grouping's date keys in sorted order: the
`Object.keys(grouped).sort()` step, sorting strings by code units. -/
def sortedDateKeys (fa : List Assessment) : List String :=
  List.insertionSort jsStrLe ((chartGroup fa).map Prod.fst)

/-- Chart entry: display date and rounded average WPM. -/
structure ChartPoint where
  date : String
  avgWPM : Nat
deriving DecidableEq, Repr

/-- Display formatting of an ISO date key: day and month, `DD/MM`.  The
source builds `new Date(year, month - 1, day)` from the split key and
formats it with `toLocaleDateString` for pt-BR with 2-digit day and month,
which yields exactly this string for calendar-valid keys. -/
def formatDisplay (dateKey : String) : String :=
  match dateKey.data with
  | [_, _, _, _, _, m1, m2, _, d1, d2] => String.mk [d1, d2, '/', m1, m2]
  | _ => dateKey

/-- Time-series chart data (`chartData` in `Dashboard.tsx`): one entry per
distinct date key in sorted key order carrying the rounded WPM mean of
that key's group.  The `none` branch of the lookup is unreachable: every
sorted key is a key of the grouping. -/
def chartData (fa : List Assessment) : List ChartPoint :=
  (sortedDateKeys fa).map (fun dateKey =>
    match lookupAssoc dateKey (chartGroup fa) with
    | some p => { date := formatDisplay dateKey, avgWPM := jsRound p.1 p.2 }
    | none => { date := formatDisplay dateKey, avgWPM := 0 })

/-- Number of distinct date strings occurring in an assessment list. -/
def distinctDateCount (fa : List Assessment) : Nat :=
  ((fa.map (fun a => a.date)).dedup).length

theorem foldl_wpm_pair (L : List Assessment) (p : Nat × Nat) :
    L.foldl (fun b a => (b.1 + a.wpm, b.2 + 1)) p =
      (p.1 + sumWpm L, p.2 + L.length) := by
  induction L generalizing p with
  | nil => simp [sumWpm]
  | cons x t ih => simp [sumWpm, ih, List.sum_cons] at *; omega

/-- C3: for assessments whose dates are zero-padded ISO strings, the chart
has one entry per distinct date string, each entry's average is the
rounded WPM mean of the assessments sharing the entry's date key, and the
underlying date keys are in strictly ascending chronological order
(`isoNum` is the year-month-day value of the key). -/
theorem chartData_spec (fa : List Assessment)
    (hval : ∀ a ∈ fa, validIsoDate a.date = true) :
    (chartData fa).length = distinctDateCount fa ∧
    (∀ i (h : i < (sortedDateKeys fa).length)
        (h2 : i < (chartData fa).length),
      (chartData fa)[i].avgWPM =
        jsRound (sumWpm (fa.filter (fun a => a.date == (sortedDateKeys fa)[i])))
          (fa.filter (fun a => a.date == (sortedDateKeys fa)[i])).length) ∧
    (sortedDateKeys fa).Pairwise (fun k1 k2 => isoNum k1 < isoNum k2) := by
  have hkeys : (chartGroup fa).map Prod.fst =
      firstOccurrences (fa.map (fun a => a.date)) :=
    groupFold_keys (fun a : Assessment => a.date)
      (fun a p => (p.1 + a.wpm, p.2 + 1)) (0, 0) fa
  have hknd : ((chartGroup fa).map Prod.fst).Nodup := by
    rw [hkeys]
    exact firstOccurrences_nodup _
  have hsnd : (sortedDateKeys fa).Nodup :=
    ((List.perm_insertionSort jsStrLe ((chartGroup fa).map Prod.fst)).nodup_iff).mpr hknd
  have hmemk : ∀ k, k ∈ sortedDateKeys fa ↔ k ∈ fa.map (fun a => a.date) := by
    intro k
    rw [sortedDateKeys, List.mem_insertionSort, hkeys, mem_firstOccurrences]
  refine ⟨?_, ?_, ?_⟩
  · have hlen1 : (chartData fa).length = (sortedDateKeys fa).length := by
      simp [chartData]
    have hlen2 : (sortedDateKeys fa).length =
        ((chartGroup fa).map Prod.fst).length :=
      (List.perm_insertionSort jsStrLe _).length_eq
    have hperm : List.Perm (firstOccurrences (fa.map (fun a => a.date)))
        ((fa.map (fun a => a.date)).dedup) :=
      (List.perm_ext_iff_of_nodup (firstOccurrences_nodup _)
        (List.nodup_dedup _)).mpr
        (fun x => by rw [mem_firstOccurrences, List.mem_dedup])
    rw [hlen1, hlen2, hkeys, distinctDateCount]
    exact hperm.length_eq
  · intro i h h2
    have hget : (chartData fa)[i] =
        (fun dateKey =>
          match lookupAssoc dateKey (chartGroup fa) with
          | some p => { date := formatDisplay dateKey, avgWPM := jsRound p.1 p.2 }
          | none => ({ date := formatDisplay dateKey, avgWPM := 0 } : ChartPoint))
          ((sortedDateKeys fa)[i]) := by
      simp [chartData]
    have hkmem : (sortedDateKeys fa)[i] ∈ fa.map (fun a => a.date) :=
      (hmemk _).mp (List.getElem_mem h)
    obtain ⟨a0, ha0, hae⟩ := List.mem_map.mp hkmem
    have hfilne : a0 ∈ fa.filter (fun a => a.date == (sortedDateKeys fa)[i]) := by
      rw [List.mem_filter]
      exact ⟨ha0, by simp [hae]⟩
    cases hfil : fa.filter (fun a => a.date == (sortedDateKeys fa)[i]) with
    | nil =>
      rw [hfil] at hfilne
      cases hfilne
    | cons a2 t2 =>
      have hlook := lookupAssoc_groupFold (fun a : Assessment => a.date)
        (fun a p => (p.1 + a.wpm, p.2 + 1)) (0, 0) fa ((sortedDateKeys fa)[i])
      rw [hfil] at hlook
      have hfold := foldl_wpm_pair (a2 :: t2) (0, 0)
      rw [hget]
      rw [show chartGroup fa = groupFold (fun a : Assessment => a.date)
        (fun a p => (p.1 + a.wpm, p.2 + 1)) (0, 0) fa from rfl]
      simp only [hlook, hfold]
      simp
  · have hsorted : (sortedDateKeys fa).Pairwise jsStrLe :=
      List.sorted_insertionSort jsStrLe ((chartGroup fa).map Prod.fst)
    have hne : (sortedDateKeys fa).Pairwise (fun k1 k2 => k1 ≠ k2) := hsnd
    have hboth := hsorted.and hne
    refine hboth.imp_of_mem ?_
    intro k1 k2 hk1 hk2 hcomb
    have hv1 : validIsoDate k1 = true := by
      obtain ⟨a, ha, hae⟩ := List.mem_map.mp ((hmemk k1).mp hk1)
      exact hae ▸ hval a ha
    have hv2 : validIsoDate k2 = true := by
      obtain ⟨a, ha, hae⟩ := List.mem_map.mp ((hmemk k2).mp hk2)
      exact hae ▸ hval a ha
    exact isoNum_lt_of_charsLe_ne k1 k2 hv1 hv2 hcomb.1 hcomb.2

/-- Witness for C3 at a concrete two-assessment list with valid ISO
dates. -/
theorem chartData_spec_witness :
    (chartData [sampleA1, sampleA2]).length =
      distinctDateCount [sampleA1, sampleA2] ∧
    (sortedDateKeys [sampleA1, sampleA2]).Pairwise
      (fun k1 k2 => isoNum k1 < isoNum k2) := by
  have h := chartData_spec [sampleA1, sampleA2] (by decide)
  exact ⟨h.1, h.2.2⟩

/-- Most-recent-first ordering on assessments used by the report builder:
the comparator `(a, b) => new Date(b.date).getTime() - new Date(a.date).getTime()`
orders by descending date; for zero-padded ISO date strings the parsed
time is ordered exactly as `isoNum`. -/
def dateDesc (a b : Assessment) : Prop := isoNum b.date ≤ isoNum a.date

instance : DecidableRel dateDesc := fun a b =>
  inferInstanceAs (Decidable (isoNum b.date ≤ isoNum a.date))

instance : IsTotal Assessment dateDesc :=
  ⟨fun a b => Nat.le_total (isoNum b.date) (isoNum a.date)⟩

instance : IsTrans Assessment dateDesc :=
  ⟨fun _ _ _ h1 h2 => Nat.le_trans h2 h1⟩

/-- The `recentHistory` selection of `generateStudentAnalysis` in
`geminiService.ts`: the assessment list sorted most-recent-first and
truncated to the first three entries (`.sort(...).slice(0, 3)`). -/
def recentHistory (assessments : List Assessment) : List Assessment :=
  (List.insertionSort dateDesc assessments).take 3

/-- C9: the report summary is built from at most three assessments, the
summarized entries are in most-recent-first date order, together with the
excluded entries they account for the whole input, and every excluded
assessment is dated no later than each summarized one. -/
theorem recentHistory_spec (assessments : List Assessment)
    (hval : ∀ a ∈ assessments, validIsoDate a.date = true) :
    (recentHistory assessments).length ≤ 3 ∧
    (recentHistory assessments).Pairwise
      (fun a b => isoNum b.date ≤ isoNum a.date) ∧
    List.Perm
      (recentHistory assessments ++
        (List.insertionSort dateDesc assessments).drop 3) assessments ∧
    (∀ x ∈ (List.insertionSort dateDesc assessments).drop 3,
      ∀ y ∈ recentHistory assessments, isoNum x.date ≤ isoNum y.date) := by
  have hsorted : (List.insertionSort dateDesc assessments).Pairwise dateDesc :=
    List.sorted_insertionSort dateDesc assessments
  refine ⟨?_, ?_, ?_, ?_⟩
  · exact List.length_take_le 3 _
  · exact hsorted.sublist (List.take_sublist 3 _)
  · rw [recentHistory, List.take_append_drop]
    exact List.perm_insertionSort dateDesc assessments
  · intro x hx y hy
    have hsplit : (List.insertionSort dateDesc assessments).Pairwise dateDesc := hsorted
    rw [← List.take_append_drop 3 (List.insertionSort dateDesc assessments)]
      at hsplit
    have hrel := (List.pairwise_append.mp hsplit).2.2
    exact hrel y hy x hx

/-- Witness for C9 at a concrete two-assessment list. -/
theorem recentHistory_spec_witness :
    (recentHistory [sampleA1, sampleA2]).length ≤ 3 ∧
    (recentHistory [sampleA1, sampleA2]).Pairwise
      (fun a b => isoNum b.date ≤ isoNum a.date) := by
  have h := recentHistory_spec [sampleA1, sampleA2] (by decide)
  exact ⟨h.1, h.2.1⟩

/-- User-initiated mutations of the domain store, as exposed by the root
component's handlers.  Generated identifiers of the add operations
(`Math.random().toString(36).substr(2, 9)`) are arbitrary random strings
and enter the model as the `id` field of the added record. -/
inductive Op where
  | addStudent (s : Student)
  | updateStudent (s : Student)
  | deleteStudent (id : String)
  | addAssessment (a : Assessment)
  | addClass (c : SchoolClass)
  | updateClass (c : SchoolClass)
  | deleteClass (id : String)
deriving DecidableEq, Repr

/-- Apply one handler to the application state. -/
def applyOp (st : AppState) : Op → AppState
  | .addStudent s => handleAddStudent st s
  | .updateStudent s => handleUpdateStudent st s
  | .deleteStudent id => handleDeleteStudent st id
  | .addAssessment a => handleAddAssessment st a
  | .addClass c => handleAddClass st c
  | .updateClass c => handleUpdateClass st c
  | .deleteClass id => handleDeleteClass st id

/-- Apply a sequence of handlers left to right. -/
def applyOps (st : AppState) : List Op → AppState
  | [] => st
  | op :: rest => applyOps (applyOp st op) rest

/-- Pairwise distinctness of the identifiers within each of the three
collections. -/
def IdsNodup (st : AppState) : Prop :=
  (st.students.map Student.id).Nodup ∧
  (st.assessments.map Assessment.id).Nodup ∧
  (st.classes.map SchoolClass.id).Nodup

instance (st : AppState) : Decidable (IdsNodup st) :=
  inferInstanceAs (Decidable (_ ∧ _ ∧ _))

/-- Freshness of the generated identifier of an add operation relative to
the state it is applied to; non-add operations generate no identifier. -/
def OpFresh (st : AppState) : Op → Prop
  | .addStudent s => s.id ∉ st.students.map Student.id
  | .addAssessment a => a.id ∉ st.assessments.map Assessment.id
  | .addClass c => c.id ∉ st.classes.map SchoolClass.id
  | _ => True

/-- Freshness of every add operation of a sequence at its point of
application. -/
def FreshAlong (st : AppState) : List Op → Prop
  | [] => True
  | op :: rest => OpFresh st op ∧ FreshAlong (applyOp st op) rest

instance instDecOpFresh (st : AppState) (op : Op) : Decidable (OpFresh st op) := by
  cases op <;> simp only [OpFresh] <;> infer_instance

instance instDecFreshAlong (st : AppState) :
    (ops : List Op) → Decidable (FreshAlong st ops)
  | [] => inferInstanceAs (Decidable True)
  | op :: rest =>
    haveI := instDecFreshAlong (applyOp st op) rest
    inferInstanceAs (Decidable (_ ∧ _))

theorem map_id_if_replace (students : List Student) (u : Student) :
    ((students.map (fun s => if s.id = u.id then u else s)).map Student.id) =
      students.map Student.id := by
  rw [List.map_map]
  apply List.map_congr_left
  intro s _
  by_cases h : s.id = u.id <;> simp [Function.comp, h]

theorem map_id_if_replace_class (classes : List SchoolClass) (c : SchoolClass) :
    ((classes.map (fun k => if k.id = c.id then c else k)).map SchoolClass.id) =
      classes.map SchoolClass.id := by
  rw [List.map_map]
  apply List.map_congr_left
  intro k _
  by_cases h : k.id = c.id <;> simp [Function.comp, h]

theorem map_id_clear_class (students : List Student) (id : String) :
    ((students.map
        (fun s => if s.classId = id then { s with classId := "" } else s)).map
      Student.id) = students.map Student.id := by
  rw [List.map_map]
  apply List.map_congr_left
  intro s _
  by_cases h : s.classId = id <;> simp [Function.comp, h]

theorem applyOp_preserves_nodup (st : AppState) (op : Op)
    (h : IdsNodup st) (hf : OpFresh st op) : IdsNodup (applyOp st op) := by
  obtain ⟨hs, ha, hc⟩ := h
  cases op with
  | addStudent s =>
    refine ⟨?_, ha, hc⟩
    simp only [applyOp, handleAddStudent, List.map_append, List.map_cons,
      List.map_nil]
    rw [List.nodup_append]
    exact ⟨hs, List.nodup_singleton _,
      by simpa [OpFresh, List.disjoint_right] using hf⟩
  | updateStudent s =>
    refine ⟨?_, ha, hc⟩
    simp only [applyOp, handleUpdateStudent]
    rw [map_id_if_replace]
    exact hs
  | deleteStudent id =>
    refine ⟨?_, ha, hc⟩
    exact List.Nodup.sublist (List.Sublist.map _ (List.filter_sublist _)) hs
  | addAssessment a =>
    refine ⟨hs, ?_, hc⟩
    simp only [applyOp, handleAddAssessment, List.map_append, List.map_cons,
      List.map_nil]
    rw [List.nodup_append]
    exact ⟨ha, List.nodup_singleton _,
      by simpa [OpFresh, List.disjoint_right] using hf⟩
  | addClass c =>
    refine ⟨hs, ha, ?_⟩
    simp only [applyOp, handleAddClass, List.map_append, List.map_cons,
      List.map_nil]
    rw [List.nodup_append]
    exact ⟨hc, List.nodup_singleton _,
      by simpa [OpFresh, List.disjoint_right] using hf⟩
  | updateClass c =>
    refine ⟨hs, ha, ?_⟩
    simp only [applyOp, handleUpdateClass]
    rw [map_id_if_replace_class]
    exact hc
  | deleteClass id =>
    refine ⟨?_, ha, ?_⟩
    · simp only [applyOp, handleDeleteClass]
      rw [map_id_clear_class]
      exact hs
    · exact List.Nodup.sublist (List.Sublist.map _ (List.filter_sublist _)) hc

/-- C6 (amended): starting from pairwise-distinct identifiers, any sequence
of handler operations preserves distinctness in all three collections,
provided every add operation's generated identifier is absent from its
collection at the moment of application. -/
theorem applyOps_preserves_nodup (st : AppState) (ops : List Op)
    (h : IdsNodup st) (hf : FreshAlong st ops) : IdsNodup (applyOps st ops) := by
  induction ops generalizing st with
  | nil => exact h
  | cons op rest ih =>
    obtain ⟨hf1, hf2⟩ := hf
    exact ih (applyOp st op) (applyOp_preserves_nodup st op h hf1) hf2

/-- C6 counterexample: the generated identifier is an arbitrary string, and
when the generator happens to emit an identifier already present (here
`"s1"`), the add operation produces a collection with duplicate
identifiers.  So the claim that an add operation never introduces an
existing identifier fails for the random generator of the source. -/
theorem addStudent_duplicate_id_breaks_nodup :
    IdsNodup sampleState ∧
    ¬ IdsNodup (applyOp sampleState (Op.addStudent
      { id := "s1", name := "Clone", classId := "",
        readingLevel := "Iniciante", avatarUrl := "" })) := by
  constructor
  · refine ⟨?_, ?_, ?_⟩ <;> decide
  · intro h
    obtain ⟨hs, _, _⟩ := h
    revert hs
    decide

/-- Concrete fresh student used by the C6 witness. -/
def sampleS3 : Student :=
  { id := "s3", name := "Caio", classId := "c1",
    readingLevel := "Iniciante", avatarUrl := "" }

/-- Witness for the amended C6 at a concrete operation sequence containing
one fresh add, one update and one delete. -/
theorem applyOps_preserves_nodup_witness :
    IdsNodup (applyOps sampleState
      [Op.addStudent sampleS3,
       Op.updateStudent { sampleS1 with name := "Ana Maria" },
       Op.deleteClass "c2"]) := by
  apply applyOps_preserves_nodup
  · refine ⟨?_, ?_, ?_⟩ <;> decide
  · refine ⟨?_, ?_, ?_, ?_⟩ <;> decide
